import Mathlib

/-!
Verification of the PBPU emulator core (src/pbpu.c) against its
specification.

Shallow embedding conventions: every C `uint8_t` is a `Nat` that the
operations keep below 256 by reducing `% 256` exactly where the C stores
truncate; `& 0xF` is `% 16`, `>> 4` is `/ 16`, `& 0xF0` is
`/ 16 % 16 * 16`, and a bitwise `|` of values with disjoint nibble masks
is `+`.  `rom` and `ram` are byte-indexed functions; the C arrays index
with a `uint8_t` (for `ram`, with `addr / 2 <= 127`), so no access is out
of bounds and total functions model them faithfully.
-/

/-- Machine state: the globals of pbpu.c that the simulator core touches
(`rom`, `ram`, `pcPtr`, `tmpPcPtr`, `locPtr`, `regX`, `regY`, `regZ`,
`useCarry`, `carry`) together with the three dirty flags
(`regsDirty`, `ramDirty`, `screenDirty`). -/
structure Machine where
  rom : Nat → Nat
  ram : Nat → Nat
  pcPtr : Nat
  tmpPcPtr : Nat
  locPtr : Nat
  regX : Nat
  regY : Nat
  regZ : Nat
  useCarry : Bool
  carry : Bool
  regsDirty : Bool
  ramDirty : Bool
  screenDirty : Bool

/-- C WriteNibble (src/pbpu.c lines 82-87): writes the low nibble of
byte `addr / 2` when `addr` is even (keeping the high nibble), else the
high nibble (keeping the low one). -/
def WriteNibble (buff : Nat → Nat) (addr val : Nat) : Nat → Nat :=
  fun i =>
    if i = addr / 2 then
      if addr % 2 = 0 then
        buff (addr / 2) / 16 % 16 * 16 + val % 16
      else
        buff (addr / 2) % 16 + val % 16 * 16
    else buff i

/-- C ReadNibble (src/pbpu.c lines 90-95): low nibble of byte
`addr / 2` when `addr` is even, else the high nibble. -/
def ReadNibble (buff : Nat → Nat) (addr : Nat) : Nat :=
  if addr % 2 = 0 then buff (addr / 2) % 16
  else buff (addr / 2) / 16 % 16

/-- C LimitRegs (src/pbpu.c lines 98-102): mask the three ALU registers
to 4 bits. -/
def LimitRegs (s : Machine) : Machine :=
  { s with regX := s.regX % 16, regY := s.regY % 16, regZ := s.regZ % 16 }

/-- The C cast `(uint8_t)carry`. -/
def boolVal (b : Bool) : Nat := if b then 1 else 0

/-- The body of the `switch` in SimStep (src/pbpu.c lines 108-177),
one case per opcode value; values 16 and above fall through with no
state change, like a C `switch` without a `default` label.  All stores
to `uint8_t` variables truncate with `% 256`. -/
def execOp (op imm : Nat) (s : Machine) : Machine :=
  if op = 0 then s
  else if op = 1 then
    let z := (s.regX + s.regY + (if s.useCarry then boolVal s.carry else 0)) % 256
    { s with regZ := z, carry := decide (z / 16 % 2 = 1), regsDirty := true }
  else if op = 2 then
    let subTmp := (s.regY + (if s.useCarry then boolVal s.carry else 0)) % 256
    { s with regZ := (s.regX % 256 + 256 - subTmp) % 256,
             carry := decide (subTmp ≤ s.regX % 256), regsDirty := true }
  else if op = 3 then
    { s with locPtr := (s.locPtr % 16 + imm * 16) % 256, regsDirty := true }
  else if op = 4 then
    { s with locPtr := (s.locPtr / 16 % 16 * 16 + imm) % 256, regsDirty := true }
  else if op = 5 then { s with regX := imm % 256, regsDirty := true }
  else if op = 6 then { s with regY := imm % 256, regsDirty := true }
  else if op = 7 then { s with regZ := imm % 256, regsDirty := true }
  else if op = 8 then
    { s with ram := WriteNibble s.ram s.locPtr s.regZ,
             screenDirty := decide (s.locPtr < 4), ramDirty := true }
  else if op = 9 then { s with regZ := ReadNibble s.ram s.locPtr, regsDirty := true }
  else if op = 10 then
    { s with tmpPcPtr := (s.tmpPcPtr / 16 % 16 * 16 + imm) % 256, regsDirty := true }
  else if op = 11 then
    { s with tmpPcPtr := (s.tmpPcPtr % 16 + imm * 16) % 256, regsDirty := true }
  else if op = 12 then
    let t := (s.tmpPcPtr + 255) % 256
    { s with tmpPcPtr := t, pcPtr := t }
  else if op = 13 then { s with regX := ReadNibble s.ram s.locPtr, regsDirty := true }
  else if op = 14 then { s with regY := ReadNibble s.ram s.locPtr, regsDirty := true }
  else if op = 15 then { s with useCarry := !s.useCarry }
  else s

/-- The opcode fetched by SimStep: `rom[pcPtr] >> 4` on a `uint8_t`. -/
def opcodeOf (s : Machine) : Nat := s.rom s.pcPtr % 256 / 16

/-- The immediate fetched by SimStep: `rom[pcPtr] & 0xF`. -/
def immOf (s : Machine) : Nat := s.rom s.pcPtr % 256 % 16

/-- C SimStep (src/pbpu.c lines 105-180): fetch, decode, execute the
switch, then unconditionally `LimitRegs()` and `pcPtr++` (with 8-bit
wraparound). -/
def SimStep (s : Machine) : Machine :=
  let op := opcodeOf s
  let imm := immOf s
  let s1 := execOp op imm s
  let s2 := LimitRegs s1
  { s2 with pcPtr := (s2.pcPtr + 1) % 256 }

/-- The nibble address sharing a byte with `a`. -/
def otherNibbleAddr (a : Nat) : Nat := if a % 2 = 0 then a + 1 else a - 1

/-- A machine whose rom holds the byte `b` at every address and whose
other fields are the zero-initialised C globals. -/
def withRom (b : Nat) : Machine where
  rom := fun _ => b
  ram := fun _ => 0
  pcPtr := 0
  tmpPcPtr := 0
  locPtr := 0
  regX := 0
  regY := 0
  regZ := 0
  useCarry := false
  carry := false
  regsDirty := false
  ramDirty := false
  screenDirty := false

/-- ADD test state of the claim without carry-in. -/
def addExA : Machine := { withRom 16 with regX := 15, regY := 1 }

/-- ADD test state of the claim with carry-in enabled and set. -/
def addExB : Machine :=
  { withRom 16 with regX := 15, regY := 1, useCarry := true, carry := true }

/-- ZTR test state with `loc = 3`. -/
def ztrEx3 : Machine := { withRom 128 with locPtr := 3 }

/-- ZTR test state with `loc = 4` and a stale screen-dirty flag, so a
step must overwrite it. -/
def ztrEx4 : Machine := { withRom 128 with locPtr := 4, screenDirty := true }

/-- JMP test state: `tmp_pc = 5` with the registers-dirty flag clear. -/
def jmpEx : Machine := { withRom 192 with tmpPcPtr := 5 }

/-- WTX test state. -/
def wtxEx : Machine := withRom 80

/-- The two load failures of main (src/pbpu.c lines 323-339). -/
inductive LoadError where
  | ProgramNotFound
  | ProgramEmpty

/-- Program load viewed as a function of the input byte stream
(src/pbpu.c lines 323-339): `none` models a source that cannot be
opened; otherwise `fread(rom, 1, sizeof(rom) - 1 = 255, f)` reads at
most 255 bytes into the zero-initialised 256-byte global `rom`, and a
read of zero bytes is rejected. -/
def loadProgram (src : Option (List Nat)) : Except LoadError (Nat → Nat) :=
  match src with
  | none => Except.error LoadError.ProgramNotFound
  | some bytes =>
    let readBytes := min bytes.length 255
    if readBytes = 0 then Except.error LoadError.ProgramEmpty
    else Except.ok fun i => if i < readBytes then bytes.getD i 0 else 0

/-- The process exit status of each load failure: both paths
`return 1` in main. -/
def loadErrorStatus : LoadError → Nat := fun _ => 1

/-- The rom produced by loading the two-byte stream [0x12, 0x34]. -/
def romEx : Nat → Nat :=
  fun i => if i < min ([18, 52] : List Nat).length 255 then List.getD [18, 52] i 0 else 0

/-- Unfolding SimStep into its three stages. -/
theorem SimStep_def (s : Machine) :
    SimStep s =
      { LimitRegs (execOp (opcodeOf s) (immOf s) s) with
        pcPtr := ((execOp (opcodeOf s) (immOf s) s).pcPtr + 1) % 256 } := rfl

/-- C5: for every buffer, nibble address in 0..255 and value in 0..15,
reading back a written nibble returns the value, the other nibble of the
same byte is unchanged, and ReadNibble selects the low nibble of
`buf[a/2]` for even addresses and the high nibble for odd ones. -/
theorem claim_C5 (buf : Nat → Nat) (a v : Nat) (ha : a < 256) (hv : v < 16) :
    ReadNibble (WriteNibble buf a v) a = v ∧
    ReadNibble (WriteNibble buf a v) (otherNibbleAddr a) =
      ReadNibble buf (otherNibbleAddr a) ∧
    (a % 2 = 0 → ReadNibble buf a = buf (a / 2) % 16) ∧
    (a % 2 = 1 → ReadNibble buf a = buf (a / 2) / 16 % 16) := by
  rcases Nat.mod_two_eq_zero_or_one a with h | h
  · have hother : otherNibbleAddr a = a + 1 := by simp [otherNibbleAddr, h]
    have hdiv : (a + 1) / 2 = a / 2 := by omega
    have hmod : (a + 1) % 2 = 1 := by omega
    refine ⟨?_, ?_, fun _ => by simp [ReadNibble, h], fun hc => by omega⟩
    · simp [ReadNibble, WriteNibble, h]
      all_goals omega
    · simp [ReadNibble, WriteNibble, hother, hdiv, hmod, h]
      all_goals omega
  · have hother : otherNibbleAddr a = a - 1 := by simp [otherNibbleAddr, h]
    have hdiv : (a - 1) / 2 = a / 2 := by omega
    have hmod : (a - 1) % 2 = 0 := by omega
    refine ⟨?_, ?_, fun hc => by omega, fun _ => by simp [ReadNibble, h]⟩
    · simp [ReadNibble, WriteNibble, h]
      all_goals omega
    · simp [ReadNibble, WriteNibble, hother, hdiv, hmod, h]

/-- Witness for C5 at buffer constantly 0xAB, odd address 5, value 7. -/
theorem claim_C5_witness :
    ReadNibble (WriteNibble (fun _ => 171) 5 7) 5 = 7 ∧
    ReadNibble (WriteNibble (fun _ => 171) 5 7) (otherNibbleAddr 5) =
      ReadNibble (fun _ => 171) (otherNibbleAddr 5) ∧
    (5 % 2 = 0 → ReadNibble (fun _ => 171) 5 = (fun _ => (171 : Nat)) (5 / 2) % 16) ∧
    (5 % 2 = 1 → ReadNibble (fun _ => 171) 5 = (fun _ => (171 : Nat)) (5 / 2) / 16 % 16) :=
  claim_C5 (fun _ => 171) 5 7 (by decide) (by decide)

/-- C1: a step fetching JMP ends with `pc` equal to the pre-step
`tmp_pc` (the pre-decrement cancels the unconditional post-step
increment) and with `tmp_pc` equal to that value minus 1 mod 256. -/
theorem claim_C1 (s : Machine) (hop : opcodeOf s = 12) (ht : s.tmpPcPtr < 256) :
    (SimStep s).pcPtr = s.tmpPcPtr ∧
    (SimStep s).tmpPcPtr = (s.tmpPcPtr + 255) % 256 := by
  rw [SimStep_def, hop]
  simp [execOp, LimitRegs]
  omega

/-- Witness for C1: JMP with `tmp_pc = 0x10` lands on `pc = 0x10`,
not 0x11 or 0x0F, and leaves `tmp_pc = 0x0F`. -/
theorem claim_C1_witness :
    (SimStep { withRom 192 with tmpPcPtr := 16 }).pcPtr = 16 ∧
    (SimStep { withRom 192 with tmpPcPtr := 16 }).tmpPcPtr = 15 := by
  have h := claim_C1 { withRom 192 with tmpPcPtr := 16 } (by decide) (by decide)
  exact ⟨h.1.trans (by decide), h.2.trans (by decide)⟩

/-- C2: a step fetching SUB, on 4-bit operands, computes
`s = Y + (use_carry ? carry : 0)`, stores `Z = (X - s)` truncated to
4 bits, and sets `carry = (X >= s)` (the borrow-inverse flag). -/
theorem claim_C2 (s : Machine) (hop : opcodeOf s = 2)
    (hx : s.regX < 16) (hy : s.regY < 16) :
    (SimStep s).regZ =
      (s.regX + 16 - (s.regY + (if s.useCarry then boolVal s.carry else 0))) % 16 ∧
    ((SimStep s).carry =
      decide (s.regY + (if s.useCarry then boolVal s.carry else 0) ≤ s.regX)) := by
  rw [SimStep_def, hop]
  have hc : (if s.useCarry then boolVal s.carry else 0) ≤ 1 := by
    cases s.useCarry <;> cases s.carry <;> simp [boolVal]
  simp [execOp, LimitRegs, decide_eq_decide]
  all_goals omega

/-- Witness for C2: SUB with X=5, Y=7, carry not used gives
Z = (5 - 7) mod 16 = 14 and carry = false. -/
theorem claim_C2_witness :
    (SimStep { withRom 32 with regX := 5, regY := 7 }).regZ = 14 ∧
    (SimStep { withRom 32 with regX := 5, regY := 7 }).carry = false := by
  have h := claim_C2 { withRom 32 with regX := 5, regY := 7 }
    (by decide) (by decide) (by decide)
  exact ⟨h.1.trans (by decide), h.2.trans (by decide)⟩

/-- C3: a step fetching ADD, on 4-bit operands, stores
`Z = (X + Y + (use_carry ? carry : 0)) mod 16` and sets `carry` to
bit 4 of the pre-truncation sum. -/
theorem claim_C3 (s : Machine) (hop : opcodeOf s = 1)
    (_hx : s.regX < 16) (_hy : s.regY < 16) :
    (SimStep s).regZ =
      (s.regX + s.regY + (if s.useCarry then boolVal s.carry else 0)) % 16 ∧
    ((SimStep s).carry =
      decide ((s.regX + s.regY + (if s.useCarry then boolVal s.carry else 0)) / 16 % 2 = 1)) := by
  rw [SimStep_def, hop]
  have hc : (if s.useCarry then boolVal s.carry else 0) ≤ 1 := by
    cases s.useCarry <;> cases s.carry <;> simp [boolVal]
  simp [execOp, LimitRegs, decide_eq_decide]
  all_goals omega

/-- Witness for C3, the two concrete cases of the claim:
X=0xF, Y=0x1 without carry-in gives Z=0x0 and carry=true; X=0xF, Y=0x1
with use_carry and a prior carry gives Z=0x1 and carry=true. -/
theorem claim_C3_witness :
    (SimStep addExA).regZ = 0 ∧ (SimStep addExA).carry = true ∧
    (SimStep addExB).regZ = 1 ∧ (SimStep addExB).carry = true := by
  have h1 := claim_C3 addExA (by decide) (by decide) (by decide)
  have h2 := claim_C3 addExB (by decide) (by decide) (by decide)
  exact ⟨h1.1.trans (by decide), h1.2.trans (by decide),
         h2.1.trans (by decide), h2.2.trans (by decide)⟩

/-- C4: PC1 writes the LOW nibble of `tmp_pc` and PC2 the HIGH nibble,
each leaving the other nibble unchanged, while WT1 writes the HIGH
nibble of `loc` and WT2 the LOW one: the two conventions are reversed. -/
theorem claim_C4 (s : Machine) :
    (opcodeOf s = 10 →
      (SimStep s).tmpPcPtr % 16 = immOf s ∧
      (SimStep s).tmpPcPtr / 16 % 16 = s.tmpPcPtr / 16 % 16) ∧
    (opcodeOf s = 11 →
      (SimStep s).tmpPcPtr / 16 % 16 = immOf s ∧
      (SimStep s).tmpPcPtr % 16 = s.tmpPcPtr % 16) ∧
    (opcodeOf s = 3 →
      (SimStep s).locPtr / 16 % 16 = immOf s ∧
      (SimStep s).locPtr % 16 = s.locPtr % 16) ∧
    (opcodeOf s = 4 →
      (SimStep s).locPtr % 16 = immOf s ∧
      (SimStep s).locPtr / 16 % 16 = s.locPtr / 16 % 16) := by
  have hi : immOf s < 16 := Nat.mod_lt _ (by omega)
  refine ⟨fun h => ?_, fun h => ?_, fun h => ?_, fun h => ?_⟩ <;>
    rw [SimStep_def, h] <;> simp [execOp, LimitRegs] <;> omega

/-- Witness for C4: PC1 5 / PC2 5 / WT1 5 / WT2 5 on
`tmp_pc = loc = 0xCD`. -/
theorem claim_C4_witness :
    ((SimStep { withRom 165 with tmpPcPtr := 205 }).tmpPcPtr % 16 =
        immOf { withRom 165 with tmpPcPtr := 205 } ∧
      (SimStep { withRom 165 with tmpPcPtr := 205 }).tmpPcPtr / 16 % 16 = 12) ∧
    ((SimStep { withRom 181 with tmpPcPtr := 205 }).tmpPcPtr / 16 % 16 =
        immOf { withRom 181 with tmpPcPtr := 205 } ∧
      (SimStep { withRom 181 with tmpPcPtr := 205 }).tmpPcPtr % 16 = 13) ∧
    ((SimStep { withRom 53 with locPtr := 205 }).locPtr / 16 % 16 =
        immOf { withRom 53 with locPtr := 205 } ∧
      (SimStep { withRom 53 with locPtr := 205 }).locPtr % 16 = 13) ∧
    ((SimStep { withRom 69 with locPtr := 205 }).locPtr % 16 =
        immOf { withRom 69 with locPtr := 205 } ∧
      (SimStep { withRom 69 with locPtr := 205 }).locPtr / 16 % 16 = 12) := by
  have h1 := (claim_C4 { withRom 165 with tmpPcPtr := 205 }).1 (by decide)
  have h2 := (claim_C4 { withRom 181 with tmpPcPtr := 205 }).2.1 (by decide)
  have h3 := (claim_C4 { withRom 53 with locPtr := 205 }).2.2.1 (by decide)
  have h4 := (claim_C4 { withRom 69 with locPtr := 205 }).2.2.2 (by decide)
  exact ⟨⟨h1.1, h1.2.trans (by decide)⟩, ⟨h2.1, h2.2.trans (by decide)⟩,
         ⟨h3.1, h3.2.trans (by decide)⟩, ⟨h4.1, h4.2.trans (by decide)⟩⟩

/-- C6 fails as stated: a ZTR step with `loc = 4` (within the first
4 bytes / 8 nibbles the claim names) reports screen_region_changed =
false, because the code tests `loc < 4`. -/
theorem claim_C6_counterexample :
    ¬ (∀ s : Machine, opcodeOf s = 8 → s.locPtr < 8 →
        (SimStep s).screenDirty = true) := by
  intro h
  exact absurd (h ztrEx4 (by decide) (by decide)) (by decide)

/-- C6 amended: a ZTR step reports screen_region_changed = true exactly
when `loc` points within the first 2 bytes (4 nibbles) of ram, the
region the 4x4 screen renders. -/
theorem claim_C6 (s : Machine) (hop : opcodeOf s = 8) :
    ((SimStep s).screenDirty = true ↔ s.locPtr < 4) := by
  rw [SimStep_def, hop]
  simp [execOp, LimitRegs]

/-- Witness for C6 amended at `loc = 3`. -/
theorem claim_C6_witness : (SimStep ztrEx3).screenDirty = true :=
  (claim_C6 ztrEx3 (by decide)).mpr (by decide)

/-- C7: a ZTR step always sets ram_changed and computes
screen_region_changed as exactly `loc < 4`, as a fresh per-step output
independent of any earlier value of the signal. -/
theorem claim_C7 (s : Machine) (hop : opcodeOf s = 8) :
    (SimStep s).ramDirty = true ∧
    (SimStep s).screenDirty = decide (s.locPtr < 4) := by
  rw [SimStep_def, hop]
  simp [execOp, LimitRegs]

/-- Witness for C7: ZTR with `loc = 3` turns the signal on; ZTR with
`loc = 4` reports false even though the previous signal was true. -/
theorem claim_C7_witness :
    ((SimStep ztrEx3).ramDirty = true ∧
      (SimStep ztrEx3).screenDirty = decide (ztrEx3.locPtr < 4)) ∧
    ((SimStep ztrEx4).ramDirty = true ∧
      (SimStep ztrEx4).screenDirty = decide (ztrEx4.locPtr < 4)) ∧
    (SimStep ztrEx3).screenDirty = true ∧
    (SimStep ztrEx4).screenDirty = false :=
  ⟨claim_C7 ztrEx3 (by decide), claim_C7 ztrEx4 (by decide),
   by decide, by decide⟩

/-- C8: after any step, the three ALU registers are 4-bit values,
whatever they held before and whatever opcode ran. -/
theorem claim_C8 (s : Machine) :
    (SimStep s).regX < 16 ∧ (SimStep s).regY < 16 ∧ (SimStep s).regZ < 16 := by
  have hx : (SimStep s).regX = (execOp (opcodeOf s) (immOf s) s).regX % 16 := rfl
  have hy : (SimStep s).regY = (execOp (opcodeOf s) (immOf s) s).regY % 16 := rfl
  have hz : (SimStep s).regZ = (execOp (opcodeOf s) (immOf s) s).regZ % 16 := rfl
  rw [hx, hy, hz]
  omega

/-- C9 fails as stated: a JMP step mutates `tmp_pc` (one of the listed
registers) yet reports regs_changed = false. -/
theorem claim_C9_counterexample :
    ¬ (∀ s : Machine, (SimStep s).tmpPcPtr ≠ s.tmpPcPtr →
        (SimStep s).regsDirty = true) := by
  intro h
  exact absurd (h jmpEx (by decide)) (by decide)

/-- C9 amended: every step whose opcode is one of ADD, SUB, WT1, WT2,
WTX, WTY, WTZ, RTZ, PC1, PC2, RTX, RTY reports regs_changed = true,
while NOP, ZTR, JMP and USC leave the signal unchanged — in particular
JMP mutates `tmp_pc` and `pc` without setting it, and the unconditional
`pc` increment never sets it. -/
theorem claim_C9 (s : Machine) :
    ((opcodeOf s = 1 ∨ opcodeOf s = 2 ∨ opcodeOf s = 3 ∨ opcodeOf s = 4 ∨
      opcodeOf s = 5 ∨ opcodeOf s = 6 ∨ opcodeOf s = 7 ∨ opcodeOf s = 9 ∨
      opcodeOf s = 10 ∨ opcodeOf s = 11 ∨ opcodeOf s = 13 ∨ opcodeOf s = 14) →
      (SimStep s).regsDirty = true) ∧
    ((opcodeOf s = 0 ∨ opcodeOf s = 8 ∨ opcodeOf s = 12 ∨ opcodeOf s = 15) →
      (SimStep s).regsDirty = s.regsDirty) := by
  have hd : (SimStep s).regsDirty = (execOp (opcodeOf s) (immOf s) s).regsDirty := rfl
  constructor
  · intro h
    rw [hd]
    rcases h with h|h|h|h|h|h|h|h|h|h|h|h <;> rw [h] <;> simp [execOp]
  · intro h
    rw [hd]
    rcases h with h|h|h|h <;> rw [h] <;> simp [execOp]

/-- Witness for C9 amended: WTX sets the signal; JMP leaves it as it
was (here: clear). -/
theorem claim_C9_witness :
    (SimStep wtxEx).regsDirty = true ∧
    (SimStep jmpEx).regsDirty = jmpEx.regsDirty :=
  ⟨(claim_C9 wtxEx).1 (by decide), (claim_C9 jmpEx).2 (by decide)⟩

/-- C10: the load reads at most 255 bytes; on success `rom[0..n)` holds
exactly the bytes read and the rest of rom stays zero; an unopenable
source fails with ProgramNotFound, a read of zero bytes (exactly: an
empty stream) fails with ProgramEmpty, and every load error exits the
process with a non-zero status. -/
theorem claim_C10 (bytes : List Nat) :
    loadProgram none = Except.error LoadError.ProgramNotFound ∧
    (loadProgram (some bytes) = Except.error LoadError.ProgramEmpty ↔
      bytes.length = 0) ∧
    (∀ rom, loadProgram (some bytes) = Except.ok rom →
      (∀ i, i < min bytes.length 255 → rom i = bytes.getD i 0) ∧
      (∀ i, min bytes.length 255 ≤ i → rom i = 0)) ∧
    (∀ e : LoadError, 0 < loadErrorStatus e) := by
  refine ⟨rfl, ?_, ?_, fun e => by simp [loadErrorStatus]⟩
  · constructor
    · intro he
      by_cases h : min bytes.length 255 = 0
      · omega
      · simp only [loadProgram] at he
        rw [if_neg h] at he
        exact absurd he (by simp)
    · intro hlen
      have h : min bytes.length 255 = 0 := by omega
      simp [loadProgram, h]
  · intro rom hok
    simp only [loadProgram] at hok
    by_cases h : min bytes.length 255 = 0
    · rw [if_pos h] at hok
      exact absurd hok (by simp)
    · rw [if_neg h] at hok
      injection hok with hfun
      have hpt : ∀ j, rom j =
          if j < min bytes.length 255 then bytes.getD j 0 else 0 := by
        intro j
        rw [← hfun]
      constructor
      · intro i hi
        rw [hpt i, if_pos hi]
      · intro i hi
        rw [hpt i, if_neg (Nat.not_lt.mpr hi)]

/-- Witness for C10 on the stream [0x12, 0x34] (and the empty and
missing streams). -/
theorem claim_C10_witness :
    loadProgram (some [18, 52]) = Except.ok romEx ∧
    romEx 0 = 18 ∧ romEx 1 = 52 ∧ romEx 2 = 0 ∧ romEx 255 = 0 ∧
    loadProgram none = Except.error LoadError.ProgramNotFound ∧
    loadProgram (some []) = Except.error LoadError.ProgramEmpty ∧
    0 < loadErrorStatus LoadError.ProgramEmpty := by
  have h := claim_C10 [18, 52]
  have hok : loadProgram (some [18, 52]) = Except.ok romEx := rfl
  have hrom := h.2.2.1 romEx hok
  refine ⟨hok, ?_, ?_, ?_, ?_, h.1, ?_, h.2.2.2 LoadError.ProgramEmpty⟩
  · exact (hrom.1 0 (by decide)).trans (by decide)
  · exact (hrom.1 1 (by decide)).trans (by decide)
  · exact hrom.2 2 (by decide)
  · exact hrom.2 255 (by decide)
  · exact (claim_C10 []).2.1.mpr rfl
